import Mathlib

/-!
# Verification of the GCF job scraper (`gcf_scraper.py`)

Shallow embedding of the extraction pipeline (`scrape_gcf_jobs`), the feed
builder (`generate_rss_feed`) and the entry point (`main`) of
`src/gcf_scraper.py`, together with proofs about the claims of the
specification.

Modelling conventions:
* The rendered HTML document handed to the parsing library is modelled by the
  inductive type `Element` (tag name, attributes, the element's own text, and
  child elements).  `get_text(strip=True)` is modelled as the concatenation of
  the element's text with all descendant text, i.e. text fields are taken to be
  already stripped; bs4 string nodes are represented by the `text` field of the
  element that owns them.
* Python strings are Lean `String`s; all string primitives used by the script
  (`in`, `lower`, `startswith`, `split`, `replace`, `strip`, slicing, `join`)
  are re-implemented below over `List Char` so that every definition is
  executable and amenable to kernel evaluation.
* The browser session is an oracle (`Env`): the initial page load either
  produces a document or fails, and navigating to a job's detail page either
  raises (`FetchResult.fail`, the `except` branch at line 207) or yields the
  detail document.  An uncaught per-candidate error (the `except` at line 241)
  is modelled by the oracle `Env.fault`.
-/

namespace GCF

/-! ## Character/string primitives (Python semantics) -/

/-- `isPref n h`: the list `n` is a prefix of `h`. -/
def isPref : List Char → List Char → Bool
  | [], _ => true
  | _ :: _, [] => false
  | a :: as, b :: bs => a == b && isPref as bs

/-- Number of positions of `h` at which `n` occurs (Python `h.count(n)` up to
overlap; used only through `= 0`, `= 1` and `≤ 1` where overlap is moot). -/
def countOcc (n : List Char) : List Char → Nat
  | [] => 0
  | c :: cs => (if isPref n (c :: cs) then 1 else 0) + countOcc n cs

/-- `hasOcc n h`: `n` occurs somewhere in `h`. -/
def hasOcc (n : List Char) : List Char → Bool
  | [] => n.isEmpty
  | c :: cs => isPref n (c :: cs) || hasOcc n cs

/-- Python `needle in hay`. -/
def containsSub (hay needle : String) : Bool :=
  needle.data.isEmpty || hasOcc needle.data hay.data

/-- Python `s.startswith(p)`. -/
def startsWithStr (s p : String) : Bool := isPref p.data s.data

/-- ASCII lower-casing of one character (Python `str.lower` restricted to the
ASCII data the script handles). -/
def lowerChar (c : Char) : Char :=
  if 'A' ≤ c && c ≤ 'Z' then Char.ofNat (c.toNat + 32) else c

/-- Python `s.lower()`. -/
def lowerStr (s : String) : String := String.mk (s.data.map lowerChar)

/-- Python `s[:n]` (slicing counts code points, as does `List.take`). -/
def takeStr (n : Nat) (s : String) : String := String.mk (s.data.take n)

/-- Python `s.split('/')[-1]`: the part of `s` after the last `'/'`. -/
def trailingSeg (s : String) : String :=
  String.mk ((s.data.reverse.takeWhile (fun c => c != '/')).reverse)

/-- Whitespace test used by Python `str.strip` (the script only meets the
common ASCII whitespace). -/
def isWs (c : Char) : Bool := c == ' ' || c == '\t' || c == '\n' || c == '\r'

/-- Python `s.strip()`. -/
def stripStr (s : String) : String :=
  String.mk (((s.data.dropWhile isWs).reverse.dropWhile isWs).reverse)

/-- Match a literal at the head, returning the remainder. -/
def matchLit : List Char → List Char → Option (List Char)
  | [], cs => some cs
  | _ :: _, [] => none
  | l :: ls, c :: cs => if l == c then matchLit ls cs else none

/-- Replace every (leftmost, non-overlapping) occurrence of `pat` by `rep`,
the semantics of Python `str.replace` for a non-empty pattern.  The fuel
argument (always instantiated with the input length, which bounds the number
of steps) makes the recursion structural. -/
def replAllF (pat rep : List Char) : Nat → List Char → List Char
  | _, [] => []
  | 0, l => l
  | fuel + 1, c :: cs =>
    match matchLit pat (c :: cs) with
    | some rest => rep ++ replAllF pat rep fuel rest
    | none => c :: replAllF pat rep fuel cs

/-- Python `s.replace(pat, rep)` (the script never replaces with an empty
pattern). -/
def pyReplace (s pat rep : String) : String :=
  String.mk (replAllF pat.data rep.data s.data.length s.data)

/-- Python `sep.join l`. -/
def joinSep (sep : String) : List String → String
  | [] => ""
  | [x] => x
  | x :: y :: xs => x ++ sep ++ joinSep sep (y :: xs)

/-! ## The document model -/

/-- A rendered HTML element: tag name, attributes, own (stripped) text, and
children, in document order. -/
inductive Element : Type where
  | mk : String → List (String × String) → String → List Element → Element

/-- Tag name (`element.name`). -/
def Element.tag : Element → String
  | .mk t _ _ _ => t

/-- Attribute list. -/
def Element.attrsOf : Element → List (String × String)
  | .mk _ a _ _ => a

/-- The element's own text. -/
def Element.ownText : Element → String
  | .mk _ _ s _ => s

/-- Child elements. -/
def Element.childrenOf : Element → List Element
  | .mk _ _ _ cs => cs

/-- `element.get(key)`: first attribute with the given name. -/
def Element.attr (e : Element) (k : String) : Option String :=
  (e.attrsOf.find? (fun p => p.1 == k)).map (·.2)

mutual
/-- `element.get_text(strip=True)`: concatenated descendant text. -/
def getText : Element → String
  | .mk _ _ s cs => s ++ getTextL cs

/-- Text of a list of elements, in order. -/
def getTextL : List Element → String
  | [] => ""
  | c :: cs => getText c ++ getTextL cs
end

mutual
/-- The element together with all its descendants, in document (pre-)order. -/
def allNodes : Element → List Element
  | .mk t a s cs => .mk t a s cs :: allNodesL cs

/-- Descendants of a list of elements, in order. -/
def allNodesL : List Element → List Element
  | [] => []
  | c :: cs => allNodes c ++ allNodesL cs
end

/-- Proper descendants of an element, in document order (`element.find_all`
searches these). -/
def descendants (e : Element) : List Element := allNodesL e.childrenOf

/-- `element.find(pred)`: first proper descendant satisfying the predicate. -/
def findFirst (p : Element → Bool) (e : Element) : Option Element :=
  (descendants e).find? p

mutual
/-- Every node of an element paired with its ancestor chain (nearest first);
`anc` is the chain of the element itself. -/
def nodesAnc : Element → List Element → List (Element × List Element)
  | .mk t a s cs, anc =>
    (.mk t a s cs, anc) :: nodesAncL cs (.mk t a s cs :: anc)

/-- `nodesAnc` over a list of siblings. -/
def nodesAncL : List Element → List Element → List (Element × List Element)
  | [], _ => []
  | c :: cs, anc => nodesAnc c anc ++ nodesAncL cs anc
end

/-- All nodes of the document with their ancestor chains; the document node
itself (bs4's `[document]`) carries no tag matched by any strategy. -/
def allWithAnc (soup : Element) : List (Element × List Element) :=
  nodesAnc soup []

/-! ## Constants of `scrape_gcf_jobs` -/

/-- The listing URL (line 36). -/
def listingUrl : String := "https://jobs.greenclimate.fund/en/sites/CX_1001/jobs"

/-- The site origin prefixed to relative links (lines 138/143). -/
def siteOrigin : String := "https://jobs.greenclimate.fund"

/-- `skip_keywords` (line 113). -/
def skipKeywords : List String :=
  ["sitemap", "account", "sign-in", "profile", "help", "about"]

/-- The keywords checked against the link target (line 122). -/
def linkSkipKeywords : List String := ["sitemap", "sign-in", "profile"]

/-- Location keywords searched in the parent container (line 161). -/
def locKeywordsParent : List String :=
  ["Remote", "Hybrid", "Incheon", "Korea", "Republic of Korea"]

/-- Location keywords searched inside the candidate (line 217). -/
def locKeywordsElem : List String := ["Remote", "Incheon", "Korea", "Hybrid"]

/-- The location value used when no location is found (line 218). -/
def defaultLocation : String := "Green Climate Fund"

/-! ## Candidate discovery (lines 80–128) -/

/-- The `href` filter of strategy 1 (lines 84–89). -/
def hrefMatchesJob (h : String) : Bool :=
  containsSub (lowerStr h) "/requisition" || containsSub h "/job/" ||
  containsSub (lowerStr h) "requisitionid" || containsSub (lowerStr h) "jobdetails"

/-- `class_=lambda x: x and kw in str(x).lower()`. -/
def classHas (e : Element) (kw : String) : Bool :=
  match e.attr "class" with
  | some c => !(c == "") && containsSub (lowerStr c) kw
  | none => false

/-- An anchor matched by strategy 1: it has a truthy `href` matching one of
the job-indicating substrings (lines 84–89). -/
def isJobLink (e : Element) : Bool :=
  e.tag == "a" &&
    (match e.attr "href" with
     | some h => !(h == "") && hrefMatchesJob h
     | none => false)

/-- A candidate: an element together with its ancestor chain (bs4 nodes carry
their parents implicitly). -/
abbrev Cand := Element × List Element

/-- Strategy 1 (lines 84–92): all job requisition links. -/
def strategy1 (soup : Element) : List Cand :=
  (allWithAnc soup).filter (fun c => isJobLink c.1)

/-- `element.find('a', href=True)` (line 99/140). -/
def findAnchorWithHref (e : Element) : Option Element :=
  findFirst (fun n => n.tag == "a" && (n.attr "href").isSome) e

/-- Strategy 2 (lines 95–102): containers holding both a title-classed heading
and a hyperlink. -/
def strategy2 (soup : Element) : List Cand :=
  (allWithAnc soup).filter (fun c =>
    (["div", "article", "li"].contains c.1.tag) &&
    (findFirst (fun n => (["h2", "h3", "h4"].contains n.tag) && classHas n "title") c.1).isSome &&
    (findAnchorWithHref c.1).isSome)

/-- Strategy 3 (lines 105–109): containers whose automation id mentions
"job". -/
def strategy3 (soup : Element) : List Cand :=
  (allWithAnc soup).filter (fun c =>
    (["div", "article"].contains c.1.tag) &&
    (match c.1.attr "data-automation-id" with
     | some v => !(v == "") && containsSub (lowerStr v) "job"
     | none => false))

/-- The cascading discovery (lines 81–109): the strategies are tried in order
and the first non-empty result wins; the returned number records which
strategy produced the candidates. -/
def discover (soup : Element) : Nat × List Cand :=
  let s1 := strategy1 soup
  if s1.isEmpty then
    let s2 := strategy2 soup
    if s2.isEmpty then (3, strategy3 soup) else (2, s2)
  else (1, s1)

/-- The navigation filter (lines 111–125): keep a candidate iff neither its
visible text contains one of `skipKeywords` nor its link target (anchors only)
contains one of `linkSkipKeywords`. -/
def keepCandidate (c : Cand) : Bool :=
  let text := lowerStr (getText c.1)
  let link := if c.1.tag == "a" then (c.1.attr "href").getD "" else ""
  !(skipKeywords.any (fun k => containsSub text k)) &&
  !(linkSkipKeywords.any (fun k => containsSub (lowerStr link) k))

/-- Line 112–127. -/
def filterCandidates (l : List Cand) : List Cand := l.filter keepCandidate

/-- The candidates entering per-candidate extraction: filtered, capped at 50
(line 130, `job_elements[:50]`). -/
def candidatesForExtraction (soup : Element) : List Cand :=
  (filterCandidates (discover soup).2).take 50

/-! ## Per-candidate extraction (lines 130–243) -/

/-- One extracted job record (the `job_data` dict). -/
structure JobRecord where
  title : String
  link : String
  location : String
  department : String
  pubDate : String
  description : String
deriving DecidableEq, Repr

/-- Outcome of driving the browser to a job's detail page: either the detour
raises (caught at line 207) or the rendered detail document is obtained. -/
inductive FetchResult : Type where
  | fail : FetchResult
  | page : Element → FetchResult

/-- The external world of one run: the initial page load (`None` models the
load raising, caught at line 247), the detail-page navigations, the
per-candidate fault oracle (an error caught by the `except` at line 241), and
the build timestamp used by the feed generator. -/
structure Env where
  pageLoad : Option Element
  fetch : String → FetchResult
  fault : Cand → Bool
  now : String

/-- Link extraction (lines 136–145): the candidate's own truthy `href` if it
is an anchor, else the first hyperlink inside it; `none` means the candidate
is skipped. -/
def resolveLink (e : Element) : Option String :=
  if e.tag == "a" && !((e.attr "href").getD "" == "") then
    some ((e.attr "href").getD "")
  else
    match findAnchorWithHref e with
    | some le => some ((le.attr "href").getD "")
    | none => none

/-- Lines 138/143: relative links get the site origin prefixed. -/
def normalizeHref (h : String) : String :=
  if startsWithStr h "http" then h else siteOrigin ++ h

/-- Lines 156–162: in the candidate's nearest container ancestor, the last
`span`/`div`/`p` descendant whose text mentions a location keyword (each match
overwrites the previous one). -/
def parentLocation (anc : List Element) : Option String :=
  match anc.find? (fun p => ["div", "article", "li"].contains p.tag) with
  | none => none
  | some parent =>
    ((descendants parent).filter (fun n => ["span", "div", "p"].contains n.tag)).foldl
      (fun acc n =>
        let t := getText n
        if locKeywordsParent.any (fun k => containsSub t k) then some t else acc)
      none

/-- Title and (for anchors) location extraction before the detail-page detour
(lines 150–172). -/
def prelim (e : Element) (anc : List Element) : String × Option String :=
  if e.tag == "a" then
    (getText e, parentLocation anc)
  else
    let te :=
      match findFirst (fun n =>
          (["h2", "h3", "h4", "a", "span"].contains n.tag) && classHas n "title") e with
      | some x => some x
      | none => findFirst (fun n => n.tag == "a") e
    (match te with
     | some x => getText x
     | none => takeStr 100 (getText e), none)

/-- The condition triggering the detail-page lookup (line 175): missing title,
title shorter than 5 characters, or title starting with "Position". -/
def titleNeedsDetail (t : String) : Bool :=
  t == "" || t.length < 5 || startsWithStr t "Position"

/-- Location extraction on the detail page (lines 193–201): the first string
mentioning a location label, its parent's text with the labels stripped. -/
def detailLocation (jsoup : Element) : Option String :=
  match (allNodes jsoup).find? (fun n =>
      containsSub n.ownText "Location:" || containsSub n.ownText "Posting Location") with
  | none => none
  | some n =>
    let lt := stripStr (pyReplace (pyReplace (getText n) "Location:" "") "Posting Location" "")
    if lt == "" then none else some lt

/-- The detail-page detour (lines 174–211).  Returns the refined title, an
optional location found on the detail page, and whether the detour was
attempted at all.  On a raised detour (`FetchResult.fail`, caught at line 207)
the title is kept, synthesized from the link's trailing path segment only when
still empty (lines 210–211). -/
def refineTitle (env : Env) (link t0 : String) : String × Option String × Bool :=
  if titleNeedsDetail t0 then
    match env.fetch link with
    | .fail =>
      ((if t0 == "" then "Position " ++ trailingSeg link else t0), none, true)
    | .page jsoup =>
      let te :=
        match findFirst (fun n => n.tag == "h1") jsoup with
        | some h => some h
        | none =>
          findFirst (fun n => (["h2", "h3"].contains n.tag) && classHas n "title") jsoup
      ((match te with | some h => getText h | none => t0), detailLocation jsoup, true)
  else (t0, none, false)

/-- Lines 213–218: location fallback chain when no location was set yet. -/
def locationStep (e : Element) (loc1 : Option String) : String :=
  match loc1 with
  | some l => l
  | none =>
    match findFirst (fun n =>
        (["span", "div", "p"].contains n.tag) && classHas n "location") e with
    | some x => getText x
    | none =>
      match (allNodes e).find? (fun n =>
          locKeywordsElem.any (fun k => containsSub n.ownText k)) with
      | some n => n.ownText
      | none => defaultLocation

/-- Lines 221–222. -/
def departmentOf (e : Element) : String :=
  match findFirst (fun n =>
      (["span", "div", "p"].contains n.tag) &&
      (classHas n "department" || classHas n "category")) e with
  | some x => getText x
  | none => ""

/-- Lines 225–226. -/
def pubDateOf (e : Element) : String :=
  match findFirst (fun n =>
      (["span", "div", "time"].contains n.tag) && classHas n "date") e with
  | some x => getText x
  | none => ""

/-- Lines 229–235: the description, joined with " | "; the location part is
skipped exactly when the location equals the literal "Not specified". -/
def mkDescription (t l d : String) : String :=
  joinSep " | "
    ([t] ++ (if !(l == "Not specified") then ["Location: " ++ l] else []) ++
      (if !(d == "") then ["Department: " ++ d] else []))

/-- The body of one iteration of the candidate loop (lines 131–235), without
the acceptance test; `none` means the candidate had no resolvable link (line
145).  The boolean records whether the detail-page lookup was attempted. -/
def processCandidate (env : Env) (c : Cand) : Option (JobRecord × Bool) :=
  match resolveLink c.1 with
  | none => none
  | some href =>
    let link := normalizeHref href
    let p := prelim c.1 c.2
    let r := refineTitle env link p.1
    let loc := locationStep c.1 (r.2.1 <|> p.2)
    let dept := departmentOf c.1
    let pd := pubDateOf c.1
    some ({ title := r.1, link := link, location := loc, department := dept,
            pubDate := pd, description := mkDescription r.1 loc dept }, r.2.2)

/-- The acceptance step (lines 237–238): append the record only when both
title and link are non-empty. -/
def accStep (env : Env) (acc : List JobRecord) (c : Cand) : List JobRecord :=
  match processCandidate env c with
  | none => acc
  | some (r, _) => if r.title != "" && r.link != "" then acc ++ [r] else acc

/-- The candidate loop (lines 130–243): a candidate on which processing raises
(`Env.fault`) is skipped and the loop continues. -/
def scrapeLoop (env : Env) (l : List Cand) : List JobRecord :=
  l.foldl (fun acc c => if env.fault c then acc else accStep env acc c) []

/-- The candidate loop without the fault handler (used to state what the
handler does). -/
def processAll (env : Env) (l : List Cand) : List JobRecord :=
  l.foldl (accStep env) []

/-- `scrape_gcf_jobs` (lines 34–253): a failed initial page load is caught at
the top level and yields the empty record list. -/
def scrape (env : Env) : List JobRecord :=
  match env.pageLoad with
  | none => []
  | some soup => scrapeLoop env (candidatesForExtraction soup)

/-! ## Feed generation (`generate_rss_feed`, lines 255–340)

The script builds an `xml.etree.ElementTree` tree and serializes it with
`ET.tostring(encoding='unicode')` after `ET.register_namespace('atom', ...)`.
`Element` doubles as the model of the ElementTree nodes.  The serializer model
follows ElementTree's behaviour for the single registered namespace: tags in
Clark notation `{uri}name` are written with the registered prefix, the
namespace declaration is emitted on the root element before its attributes,
text is entity-escaped, and an element with no text and no children is written
self-closed.  The final `minidom` pretty-printing step (lines 329–333) only
reformats inter-element whitespace; properties are stated of the serialized
document before that reformatting. -/

/-- The Atom namespace URI registered at line 259. -/
def atomUri : String := "http://www.w3.org/2005/Atom"

/-- Clark-notation tag prefix for the Atom namespace. -/
def atomBrace : String := "{http://www.w3.org/2005/Atom}"

/-- Resolve a Clark-notation tag to its prefixed form. -/
def qualify (t : String) : String :=
  if startsWithStr t atomBrace then "atom:" ++ String.mk (t.data.drop atomBrace.data.length)
  else t

/-- ElementTree text escaping. -/
def escChar (c : Char) : List Char :=
  if c == '&' then "&amp;".data
  else if c == '<' then "&lt;".data
  else if c == '>' then "&gt;".data
  else [c]

/-- Escaped element text. -/
def escText (s : String) : String := String.mk (s.data.flatMap escChar)

/-- ElementTree attribute-value escaping. -/
def escAttrChar (c : Char) : List Char :=
  if c == '&' then "&amp;".data
  else if c == '<' then "&lt;".data
  else if c == '>' then "&gt;".data
  else if c == '"' then "&quot;".data
  else [c]

/-- Serialized attribute list. -/
def attrsStr : List (String × String) → String
  | [] => ""
  | (k, v) :: rest => " " ++ k ++ "=\"" ++ String.mk (v.data.flatMap escAttrChar) ++ "\"" ++ attrsStr rest

mutual
/-- Does the tree use the Atom namespace anywhere? -/
def nsUsedE : Element → Bool
  | .mk t _ _ cs => startsWithStr t atomBrace || nsUsedL cs

/-- `nsUsedE` over children. -/
def nsUsedL : List Element → Bool
  | [] => false
  | c :: cs => nsUsedE c || nsUsedL cs
end

mutual
/-- ElementTree serialization of a non-root element. -/
def serializeElem : Element → String
  | .mk t a s cs =>
    if s == "" && cs.isEmpty then "<" ++ qualify t ++ attrsStr a ++ " />"
    else
      "<" ++ qualify t ++ attrsStr a ++ ">" ++ escText s ++ serializeL cs ++
        "</" ++ qualify t ++ ">"

/-- Serialization of a child list, in order. -/
def serializeL : List Element → String
  | [] => ""
  | c :: cs => serializeElem c ++ serializeL cs
end

/-- `ET.tostring(root, encoding='unicode')`: the root element additionally
carries the namespace declarations of the document (here: the single
registered Atom prefix, if used). -/
def serializeDoc (root : Element) : String :=
  match root with
  | .mk t a s cs =>
    let decl := if nsUsedE root then " xmlns:atom=\"" ++ atomUri ++ "\"" else ""
    if s == "" && cs.isEmpty then "<" ++ qualify t ++ decl ++ attrsStr a ++ " />"
    else
      "<" ++ qualify t ++ decl ++ attrsStr a ++ ">" ++ escText s ++ serializeL cs ++
        "</" ++ qualify t ++ ">"

/-- One `<item>` element (lines 291–315).  The `job.get(...)` defaults cannot
fire on records of `scrape`, whose fields are all present; the `pubDate`
element is emitted only for a non-empty `pubDate`, verbatim (the
`try`/`except` at lines 311–315 performs a plain assignment that cannot
raise). -/
def itemTree (j : JobRecord) : Element :=
  .mk "item" [] ""
    ([.mk "title" [] j.title [],
      .mk "link" [] j.link [],
      .mk "description" [] j.description [],
      .mk "guid" [("isPermaLink", "true")] j.link []] ++
     (if !(j.pubDate == "") then [.mk "pubDate" [] j.pubDate []] else []))

/-- The channel metadata children (lines 268–288), `now` being the formatted
`lastBuildDate` timestamp. -/
def metaChildren (now : String) : List Element :=
  [.mk "title" [] "Green Climate Fund Jobs" [],
   .mk "link" [] listingUrl [],
   .mk "description" [] "Job listings from Green Climate Fund" [],
   .mk "language" [] "en-us" [],
   .mk "{http://www.w3.org/2005/Atom}link"
     [("href", "https://cinfoposte.github.io/gcf-jobs/gcf_jobs.xml"),
      ("rel", "self"), ("type", "application/rss+xml")] "" [],
   .mk "lastBuildDate" [] now []]

/-- The `<channel>` element (lines 265–315). -/
def channelTree (now : String) (jobs : List JobRecord) : Element :=
  .mk "channel" [] "" (metaChildren now ++ jobs.map itemTree)

/-- The `<rss>` root (line 262). -/
def rssTree (now : String) (jobs : List JobRecord) : Element :=
  .mk "rss" [("version", "2.0")] "" [channelTree now jobs]

/-- The `ns0:` prefix fix-ups of lines 321–323. -/
def fixNs0 (s : String) : String :=
  pyReplace (pyReplace (pyReplace s "xmlns:ns0=" "xmlns:atom=") "<ns0:" "<atom:")
    "</ns0:" "</atom:"

/-- The literal opening both halves of the dedup regex (line 327). -/
def atomDeclLit : List Char := "xmlns:atom=\"".data

/-- Match `[^"]*"`, returning the remainder. -/
def matchQuoted : List Char → Option (List Char)
  | [] => none
  | c :: cs => if c == '"' then some cs else matchQuoted cs

/-- Match `\s+` (greedily; the following literal is not whitespace, so greedy
matching is exact), returning the remainder. -/
def matchWs1 : List Char → Option (List Char)
  | [] => none
  | c :: cs => if isWs c then some (cs.dropWhile isWs) else none

/-- Match the regex `xmlns:atom="[^"]*"\s+xmlns:atom="[^"]*"` at the head,
returning the remainder after the match. -/
def matchAtomPat (cs : List Char) : Option (List Char) :=
  (matchLit atomDeclLit cs).bind fun r1 =>
  (matchQuoted r1).bind fun r2 =>
  (matchWs1 r2).bind fun r3 =>
  (matchLit atomDeclLit r3).bind fun r4 =>
  matchQuoted r4

/-- The replacement string of the `re.sub` at line 327. -/
def dedupReplacement : String := "xmlns:atom=\"http://www.w3.org/2005/Atom\""

/-- `re.sub(r'xmlns:atom="[^"]*"\s+xmlns:atom="[^"]*"', dedupReplacement, ·)`:
leftmost, non-overlapping matches are replaced; the replacement text is not
rescanned.  Fuelled like `replAllF` (`matchAtomPat_length` shows a match
strictly shrinks the remainder, so fuel = input length suffices). -/
def dedupScanF : Nat → List Char → List Char
  | _, [] => []
  | 0, l => l
  | fuel + 1, c :: cs =>
    match matchAtomPat (c :: cs) with
    | some rest => dedupReplacement.data ++ dedupScanF fuel rest
    | none => c :: dedupScanF fuel cs

/-- Line 327 over strings. -/
def dedupAtomDecl (s : String) : String := String.mk (dedupScanF s.data.length s.data)

/-- The serialized feed document after the namespace fix-ups (`xml_string` at
line 327, before the whitespace-only pretty-printing). -/
def generateRssXml (now : String) (jobs : List JobRecord) : String :=
  dedupAtomDecl (fixNs0 (serializeDoc (rssTree now jobs)))

/-! ## The entry point (`main`, lines 342–358) -/

/-- The externally visible effect of `main`: the feed file is written only
when scraping produced at least one record (line 351). -/
def mainWrites (env : Env) : Option (String × String) :=
  let jobs := scrape env
  if jobs.isEmpty then none else some ("gcf_jobs.xml", generateRssXml env.now jobs)

/-- `main` acting on a file store mapping paths to contents. -/
def runMain (env : Env) (fs : String → Option String) : String → Option String :=
  match mainWrites env with
  | none => fs
  | some pc => fun q => if q == pc.1 then some pc.2 else fs q

/-! ## Occurrence-counting helpers

Used to state and prove the namespace-declaration properties of the serialized
feed.  `noCrossL n a` (resp. `noCrossR n b`) is a decidable check ruling out an
occurrence of `n` straddling the boundary of `a ++ b` from the left (resp.
right) side. -/

/-- No non-empty proper suffix of `a` is a proper prefix of `n`: an occurrence
of `n` in `a ++ b` cannot start inside `a` and continue into `b`, whatever `b`
is.  (A suffix that is a prefix of `n` and at least as long as `n` is a full
occurrence inside `a`, not a crossing.) -/
def noCrossL (n : List Char) : List Char → Bool
  | [] => true
  | c :: cs => (!isPref (c :: cs) n || decide (n.length ≤ (c :: cs).length)) && noCrossL n cs

/-- No non-empty proper suffix of `n` is a prefix of `b`: an occurrence of `n`
in `a ++ b` cannot continue into `b`, whatever `a` is. -/
def noCrossR (n b : List Char) : Bool :=
  (List.range n.length).all (fun k => k == 0 || !isPref (n.drop k) b)

/-- Occurrence count over strings. -/
def countS (needle s : String) : Nat := countOcc needle.data s.data

/-- The serialization of a childless element (both branches of
`serializeElem` specialized to no children). -/
def elemStr (t : String) (a : List (String × String)) (s : String) : String :=
  if s == "" then "<" ++ qualify t ++ attrsStr a ++ " />"
  else "<" ++ qualify t ++ attrsStr a ++ ">" ++ escText s ++ "</" ++ qualify t ++ ">"

/-- No non-empty proper suffix of `N` starts with `'<'` (so `N` cannot
straddle a boundary whose right side starts with a tag opener). -/
def headsOkLt (N : List Char) : Bool :=
  (List.range N.length).all (fun k => k == 0 || !((N.drop k).head? == some '<'))

/-- The decidable side conditions under which a serialized childless element
of tag `t` and attributes `a` contains no occurrence of `N` outside its
escaped text. -/
def elemOk (N : List Char) (t : String) (a : List (String × String)) : Prop :=
  countOcc N ("<" ++ qualify t ++ attrsStr a ++ " />").data = 0 ∧
  countOcc N ("<" ++ qualify t ++ attrsStr a ++ ">").data = 0 ∧
  noCrossL N ("<" ++ qualify t ++ attrsStr a ++ ">").data = true ∧
  countOcc N ("</" ++ qualify t ++ ">").data = 0 ∧
  noCrossR N ("</" ++ qualify t ++ ">").data = true

instance (N : List Char) (t : String) (a : List (String × String)) :
    Decidable (elemOk N t a) := by
  unfold elemOk; infer_instance

/-- The decidable side conditions under which a serialized `<item>` element
contains no occurrence of `N` outside its escaped fields. -/
def itemOk (N : List Char) : Prop :=
  noCrossL N "<item>".data = true ∧ countOcc N "<item>".data = 0 ∧
  countOcc N "</item>".data = 0 ∧ noCrossR N "</item>".data = true ∧
  headsOkLt N = true ∧
  elemOk N "title" [] ∧ elemOk N "link" [] ∧ elemOk N "description" [] ∧
  elemOk N "guid" [("isPermaLink", "true")] ∧ elemOk N "pubDate" []

instance (N : List Char) : Decidable (itemOk N) := by
  unfold itemOk; infer_instance

/-- Hypothesis on a record's fields under which the serialized feed provably
contains no stray namespace-declaration text: none of the serialized
(escaped) fields mentions `xmlns:` or `ns0`.  Holds for every record the
scraper can realistically produce. -/
def cleanFields (j : JobRecord) : Prop :=
  countS "xmlns:" (escText j.title) = 0 ∧ countS "ns0" (escText j.title) = 0 ∧
  countS "xmlns:" (escText j.link) = 0 ∧ countS "ns0" (escText j.link) = 0 ∧
  countS "xmlns:" (escText j.description) = 0 ∧ countS "ns0" (escText j.description) = 0 ∧
  countS "xmlns:" (escText j.pubDate) = 0 ∧ countS "ns0" (escText j.pubDate) = 0

instance (j : JobRecord) : Decidable (cleanFields j) := by
  unfold cleanFields; infer_instance

/-- The document text before the `lastBuildDate` timestamp. -/
def rssHeadPre : String :=
  "<rss xmlns:atom=\"http://www.w3.org/2005/Atom\" version=\"2.0\"><channel><title>Green Climate Fund Jobs</title><link>https://jobs.greenclimate.fund/en/sites/CX_1001/jobs</link><description>Job listings from Green Climate Fund</description><language>en-us</language><atom:link href=\"https://cinfoposte.github.io/gcf-jobs/gcf_jobs.xml\" rel=\"self\" type=\"application/rss+xml\" /><lastBuildDate>"

/-- The document text between the timestamp and the items. -/
def rssHeadPost : String := "</lastBuildDate>"

/-- The document text after the items. -/
def rssTail : String := "</channel></rss>"

/-! ## Concrete test fixtures (used by witnesses and counterexamples) -/

/-- A well-formed job link carrying a usable title. -/
def anchGood : Element := .mk "a" [("href", "/job/123")] "Software Engineer" []

/-- A document containing exactly `anchGood`. -/
def soupGood : Element := .mk "[document]" [] "" [anchGood]

/-- A run on `soupGood` in which every detail-page navigation raises. -/
def envGood : Env :=
  { pageLoad := some soupGood, fetch := fun _ => .fail, fault := fun _ => false,
    now := "Sun, 12 Oct 2025 00:00:00 +0000" }

/-- A job link whose text is a 3-character title. -/
def anchShort : Element := .mk "a" [("href", "/job/99")] "abc" []

/-- A document containing exactly `anchShort`. -/
def soupShort : Element := .mk "[document]" [] "" [anchShort]

/-- A run on `soupShort` in which the detail-page lookup fails. -/
def envShort : Env :=
  { pageLoad := some soupShort, fetch := fun _ => .fail, fault := fun _ => false,
    now := "Sun, 12 Oct 2025 00:00:00 +0000" }

/-- A job link whose link target mentions "account" while its visible text
mentions none of the filter keywords. -/
def anchAccount : Element := .mk "a" [("href", "/en/account/job/42")] "Engineering Lead Vacancy" []

/-- A job link whose target already carries a (non-http) scheme. -/
def anchFtp : Element := .mk "a" [("href", "ftp://files.example/job/7")] "File Transfer Engineer" []

/-- A document containing exactly `anchFtp`. -/
def soupFtp : Element := .mk "[document]" [] "" [anchFtp]

/-- A run on `soupFtp`. -/
def envFtp : Env :=
  { pageLoad := some soupFtp, fetch := fun _ => .fail, fault := fun _ => false,
    now := "Sun, 12 Oct 2025 00:00:00 +0000" }

/-- A run whose initial page load fails. -/
def envNone : Env :=
  { pageLoad := none, fetch := fun _ => .fail, fault := fun _ => false,
    now := "Sun, 12 Oct 2025 00:00:00 +0000" }

/-- The record scraped from `envGood`. -/
def recGood : JobRecord :=
  { title := "Software Engineer", link := "https://jobs.greenclimate.fund/job/123",
    location := "Green Climate Fund", department := "", pubDate := "",
    description := "Software Engineer | Location: Green Climate Fund" }

/-- The record extracted from `envShort` (title kept despite the failed
detail lookup, since it is non-empty). -/
def recShort : JobRecord :=
  { title := "abc", link := "https://jobs.greenclimate.fund/job/99",
    location := "Green Climate Fund", department := "", pubDate := "",
    description := "abc | Location: Green Climate Fund" }

/-- Modelled from the spec: the spec's notion of a link that "already has a
scheme" (an RFC-3986-style scheme: a non-empty alphabetic prefix followed by
`:`), used to compare the spec's wording with the code's `startswith('http')`
test. -/
def linkHasSchemeSpec (s : String) : Bool :=
  let pre := s.data.takeWhile (fun c => c.isAlpha)
  !pre.isEmpty && ((s.data.drop pre.length).head? == some ':')

/-- A file store with no feed file (used to state frame conditions). -/
def emptyFs : String → Option String := fun _ => none

/-- The worked example record of the specification. -/
def recEngineer : JobRecord :=
  { title := "Engineer", link := "https://x/1", location := "Remote", department := "",
    pubDate := "", description := "Engineer | Location: Remote" }

/-! # Theorems

## Prefix and occurrence-counting lemmas -/

set_option maxRecDepth 80000

set_option maxHeartbeats 4000000

theorem isPref_length {n t : List Char} (h : isPref n t = true) : n.length ≤ t.length := by
  induction n generalizing t with
  | nil => simp
  | cons a as ih =>
    cases t with
    | nil => simp [isPref] at h
    | cons b bs =>
      simp only [isPref, Bool.and_eq_true] at h
      have := ih h.2
      simp only [List.length_cons]
      omega

theorem isPref_append_longer {n t : List Char} (b : List Char) (h : n.length ≤ t.length) :
    isPref n (t ++ b) = isPref n t := by
  induction n generalizing t with
  | nil => simp [isPref]
  | cons a as ih =>
    cases t with
    | nil => simp at h
    | cons c ts =>
      simp only [List.length_cons] at h
      simp only [List.cons_append, isPref, List.append_eq]
      rw [ih (t := ts) (by omega)]

theorem isPref_split {n t : List Char} (b : List Char) (h : t.length ≤ n.length) :
    isPref n (t ++ b) = (isPref t n && isPref (n.drop t.length) b) := by
  induction t generalizing n with
  | nil => simp [isPref]
  | cons c ts ih =>
    cases n with
    | nil => simp at h
    | cons a as =>
      simp only [List.length_cons] at h
      simp only [List.cons_append, isPref, List.drop_succ_cons, List.append_eq]
      rw [ih (n := as) (by omega)]
      by_cases hac : a = c
      · subst hac; simp
      · have e1 : (a == c) = false := beq_eq_false_iff_ne.mpr hac
        have e2 : (c == a) = false := beq_eq_false_iff_ne.mpr (Ne.symm hac)
        rw [e1, e2]
        simp

theorem isPref_extend {n t : List Char} (b : List Char) (h : isPref n t = true) :
    isPref n (t ++ b) = true := by
  rw [isPref_append_longer b (isPref_length h)]; exact h

theorem isPref_append_elim {x y h : List Char} (hp : isPref (x ++ y) h = true) :
    isPref x h = true ∧ isPref y (h.drop x.length) = true := by
  induction x generalizing h with
  | nil => simpa [isPref] using hp
  | cons a xs ih =>
    cases h with
    | nil => simp [isPref] at hp
    | cons c hs =>
      simp only [List.cons_append, isPref, Bool.and_eq_true] at hp ⊢
      obtain ⟨hac, hrest⟩ := hp
      obtain ⟨h1, h2⟩ := ih hrest
      exact ⟨⟨hac, h1⟩, by simpa using h2⟩

theorem countOcc_append {n : List Char} (a b : List Char)
    (hc : ∀ t : List Char, t <:+ a → t ≠ [] → t.length < n.length →
      isPref t n = false ∨ isPref (n.drop t.length) b = false) :
    countOcc n (a ++ b) = countOcc n a + countOcc n b := by
  induction a with
  | nil => simp [countOcc]
  | cons c a' ih =>
    have hc' : ∀ t : List Char, t <:+ a' → t ≠ [] → t.length < n.length →
        isPref t n = false ∨ isPref (n.drop t.length) b = false := by
      intro t ht hne hlt
      exact hc t (ht.trans (List.suffix_cons c a')) hne hlt
    have heq : isPref n ((c :: a') ++ b) = isPref n (c :: a') := by
      by_cases hlen : n.length ≤ (c :: a').length
      · exact isPref_append_longer b hlen
      · push_neg at hlen
        have h1 : isPref n (c :: a') = false := by
          by_contra hb
          rw [Bool.not_eq_false] at hb
          exact absurd (isPref_length hb) (by omega)
        rw [h1]
        rw [isPref_split b (by omega)]
        rcases hc (c :: a') (List.suffix_refl _) (by simp) hlen with h2 | h2
        · simp [h2]
        · simp only [List.length_cons] at h2
          simp [h2]
    calc countOcc n ((c :: a') ++ b)
        = (if isPref n ((c :: a') ++ b) then 1 else 0) + countOcc n (a' ++ b) := rfl
      _ = (if isPref n (c :: a') then 1 else 0) + (countOcc n a' + countOcc n b) := by
          rw [heq, ih hc']
      _ = countOcc n (c :: a') + countOcc n b := by
          simp [countOcc]; omega

theorem noCrossL_spec {n a : List Char} (h : noCrossL n a = true) :
    ∀ t : List Char, t <:+ a → t ≠ [] → t.length < n.length → isPref t n = false := by
  induction a with
  | nil =>
    intro t ht hne _
    exact absurd (List.eq_nil_of_suffix_nil ht) hne
  | cons c cs ih =>
    simp only [noCrossL, Bool.and_eq_true] at h
    obtain ⟨h1, h2⟩ := h
    intro t ht hne hlt
    rcases List.suffix_cons_iff.mp ht with rfl | ht'
    · rw [Bool.or_eq_true] at h1
      rcases h1 with h1 | h1
      · simpa using h1
      · have := of_decide_eq_true h1
        omega
    · exact ih h2 t ht' hne hlt

theorem countOcc_append_l {n a : List Char} (h : noCrossL n a = true) (b : List Char) :
    countOcc n (a ++ b) = countOcc n a + countOcc n b := by
  apply countOcc_append
  intro t ht hne hlt
  left
  exact noCrossL_spec h t ht hne hlt

theorem countOcc_append_r {n b : List Char} (h : noCrossR n b = true) (a : List Char) :
    countOcc n (a ++ b) = countOcc n a + countOcc n b := by
  apply countOcc_append
  intro t ht hne hlt
  right
  have := (List.all_eq_true.mp h) t.length (by rw [List.mem_range]; exact hlt)
  simp only [Bool.or_eq_true, beq_iff_eq, Bool.not_eq_true'] at this
  rcases this with h1 | h1
  · exact absurd (List.length_eq_zero.mp h1) hne
  · exact h1

theorem noCrossR_append {n p : List Char} (h : noCrossR n p = true)
    (hl : n.length ≤ p.length + 1) (r : List Char) : noCrossR n (p ++ r) = true := by
  rw [noCrossR, List.all_eq_true]
  intro k hk
  rw [List.mem_range] at hk
  by_cases hk0 : k = 0
  · simp [hk0]
  · have := (List.all_eq_true.mp h) k (by rw [List.mem_range]; exact hk)
    simp only [Bool.or_eq_true, beq_iff_eq, Bool.not_eq_true'] at this
    rcases this with h1 | h1
    · exact absurd h1 hk0
    · have hlen : (n.drop k).length ≤ p.length := by
        simp only [List.length_drop]; omega
      simp only [Bool.or_eq_true, beq_iff_eq, Bool.not_eq_true']
      right
      rw [isPref_append_longer r hlen]
      exact h1

theorem countOcc_zero_suffix {n h : List Char} (hn : n ≠ []) (h0 : countOcc n h = 0)
    {t : List Char} (ht : t <:+ h) : isPref n t = false := by
  induction h with
  | nil =>
    have : t = [] := List.eq_nil_of_suffix_nil ht
    subst this
    cases n with
    | nil => exact absurd rfl hn
    | cons a as => rfl
  | cons c hs ih =>
    simp only [countOcc] at h0
    have h1 : isPref n (c :: hs) = false := by
      by_contra hb
      rw [Bool.not_eq_false] at hb
      rw [hb] at h0
      simp at h0
    have h2 : countOcc n hs = 0 := by
      rcases Nat.add_eq_zero.mp h0 with ⟨_, hr⟩
      exact hr
    rcases List.suffix_cons_iff.mp ht with rfl | ht'
    · exact h1
    · exact ih h2 ht'

theorem countOcc_pos_of_suffix {n h t : List Char} (hn : n ≠ []) (ht : t <:+ h)
    (hp : isPref n t = true) : 1 ≤ countOcc n h := by
  induction h with
  | nil =>
    have : t = [] := List.eq_nil_of_suffix_nil ht
    subst this
    cases n with
    | nil => exact absurd rfl hn
    | cons a as => simp [isPref] at hp
  | cons c hs ih =>
    simp only [countOcc]
    rcases List.suffix_cons_iff.mp ht with rfl | ht'
    · rw [hp]; simp
    · have := ih ht'
      omega

theorem countOcc_infix_zero {n h : List Char} (u v : List Char) (hn : n ≠ [])
    (h0 : countOcc n h = 0) : countOcc (u ++ n ++ v) h = 0 := by
  induction h with
  | nil => simp [countOcc]
  | cons c hs ih =>
    have h1 : countOcc n hs = 0 := by
      simp only [countOcc] at h0
      rcases Nat.add_eq_zero.mp h0 with ⟨_, hr⟩
      exact hr
    have h2 : isPref (u ++ n ++ v) (c :: hs) = false := by
      by_contra hb
      rw [Bool.not_eq_false] at hb
      have e1 := (isPref_append_elim (x := u ++ n) (y := v) hb).1
      have e2 := (isPref_append_elim (x := u) (y := n) e1).2
      have hsuf : (c :: hs).drop u.length <:+ (c :: hs) := List.drop_suffix _ _
      have := countOcc_zero_suffix hn h0 hsuf
      rw [e2] at this
      exact absurd this (by simp)
    simp only [countOcc, h2]
    simpa using ih h1

theorem matchLit_eq_none {l cs : List Char} (h : isPref l cs = false) : matchLit l cs = none := by
  induction l generalizing cs with
  | nil => simp [isPref] at h
  | cons a as ih =>
    cases cs with
    | nil => rfl
    | cons c cs' =>
      by_cases hac : a = c
      · subst hac
        simp only [isPref, beq_self_eq_true, Bool.true_and] at h
        simp [matchLit, ih h]
      · simp [matchLit, beq_eq_false_iff_ne.mpr hac]

theorem matchLit_some {l cs r : List Char} (h : matchLit l cs = some r) :
    isPref l cs = true ∧ r <:+ cs ∧ r.length + l.length = cs.length := by
  induction l generalizing cs with
  | nil =>
    simp only [matchLit, Option.some_inj] at h
    subst h
    exact ⟨rfl, List.suffix_refl _, by simp⟩
  | cons a as ih =>
    cases cs with
    | nil => simp [matchLit] at h
    | cons c cs' =>
      simp only [matchLit] at h
      split at h
      · obtain ⟨h1, h2, h3⟩ := ih h
        refine ⟨?_, h2.trans (List.suffix_cons c cs'), by simp only [List.length_cons]; omega⟩
        simp only [isPref, Bool.and_eq_true]
        exact ⟨by assumption, h1⟩
      · exact absurd h (by simp)

theorem matchQuoted_some {cs r : List Char} (h : matchQuoted cs = some r) :
    r <:+ cs ∧ r.length < cs.length := by
  induction cs with
  | nil => simp [matchQuoted] at h
  | cons c cs' ih =>
    simp only [matchQuoted] at h
    split at h
    · have hr : r = cs' := (Option.some_inj.mp h).symm
      rw [hr]
      exact ⟨List.suffix_cons c cs', by simp⟩
    · obtain ⟨h1, h2⟩ := ih h
      exact ⟨h1.trans (List.suffix_cons c cs'), by simp only [List.length_cons]; omega⟩

theorem matchWs1_some {cs r : List Char} (h : matchWs1 cs = some r) :
    r <:+ cs ∧ r.length < cs.length := by
  cases cs with
  | nil => simp [matchWs1] at h
  | cons c cs' =>
    simp only [matchWs1] at h
    split at h
    · have hr : r = cs'.dropWhile isWs := (Option.some_inj.mp h).symm
      rw [hr]
      have h1 := List.dropWhile_suffix (l := cs') isWs
      have h2 := h1.sublist.length_le
      exact ⟨h1.trans (List.suffix_cons c cs'), by simp only [List.length_cons]; omega⟩
    · exact absurd h (by simp)

theorem matchAtomPat_two {cs r : List Char} (h : matchAtomPat cs = some r) :
    2 ≤ countOcc atomDeclLit cs := by
  simp only [matchAtomPat, Option.bind_eq_bind, Option.bind_eq_some] at h
  obtain ⟨r1, h1, r2, h2, r3, h3, r4, h4, _⟩ := h
  obtain ⟨p1, s1, l1⟩ := matchLit_some h1
  obtain ⟨s2, l2⟩ := matchQuoted_some h2
  obtain ⟨s3, l3⟩ := matchWs1_some h3
  obtain ⟨p4, _, _⟩ := matchLit_some h4
  have hn : atomDeclLit ≠ [] := by decide
  cases cs with
  | nil => simp [isPref, atomDeclLit] at p1
  | cons c cs0 =>
    have hr3 : r3 <:+ cs0 := by
      rcases List.suffix_cons_iff.mp (s3.trans (s2.trans s1)) with rfl | h'
      · exfalso
        have : atomDeclLit.length = 12 := by decide
        simp only [List.length_cons] at l1 l3
        omega
      · exact h'
    have hone : 1 ≤ countOcc atomDeclLit cs0 := countOcc_pos_of_suffix hn hr3 p4
    simp only [countOcc, p1, if_true]
    omega

theorem replAllF_id {pat rep : List Char} (fuel : Nat) {l : List Char}
    (h0 : countOcc pat l = 0) : replAllF pat rep fuel l = l := by
  induction l generalizing fuel with
  | nil => cases fuel <;> rfl
  | cons c cs ih =>
    have hn : pat ≠ [] := by
      rintro rfl
      simp [countOcc, isPref] at h0
    have h1 : isPref pat (c :: cs) = false := countOcc_zero_suffix hn h0 (List.suffix_refl _)
    have h2 : countOcc pat cs = 0 := by
      simp only [countOcc] at h0
      rcases Nat.add_eq_zero.mp h0 with ⟨_, hr⟩
      exact hr
    cases fuel with
    | zero => rfl
    | succ f =>
      simp only [replAllF, matchLit_eq_none h1]
      rw [ih f h2]

theorem pyReplace_id {s pat : String} (rep : String) (h0 : countOcc pat.data s.data = 0) :
    pyReplace s pat rep = s := by
  unfold pyReplace
  rw [replAllF_id _ h0]

theorem dedupScanF_id (fuel : Nat) {l : List Char} (h : countOcc atomDeclLit l ≤ 1) :
    dedupScanF fuel l = l := by
  induction l generalizing fuel with
  | nil => cases fuel <;> rfl
  | cons c cs ih =>
    have h2 : countOcc atomDeclLit cs ≤ 1 := by
      simp only [countOcc] at h
      omega
    have hm : matchAtomPat (c :: cs) = none := by
      cases hmp : matchAtomPat (c :: cs) with
      | none => rfl
      | some r => exact absurd (matchAtomPat_two hmp) (by omega)
    cases fuel with
    | zero => rfl
    | succ f =>
      simp only [dedupScanF, hm]
      rw [ih f h2]

theorem dedupAtomDecl_id {s : String} (h : countOcc atomDeclLit s.data ≤ 1) :
    dedupAtomDecl s = s := by
  unfold dedupAtomDecl
  rw [dedupScanF_id _ h]

theorem countOcc_prefix_le (x y h : List Char) : countOcc (x ++ y) h ≤ countOcc x h := by
  induction h with
  | nil => simp [countOcc]
  | cons c hs ih =>
    simp only [countOcc]
    have : (if isPref (x ++ y) (c :: hs) then 1 else 0) ≤ (if isPref x (c :: hs) then 1 else 0) := by
      by_cases hp : isPref (x ++ y) (c :: hs) = true
      · rw [hp, (isPref_append_elim hp).1]
      · rw [Bool.not_eq_true] at hp
        rw [hp]
        simp
    omega

theorem countOcc_zero_of_not_mem {n h : List Char} {c : Char} (hc : n.head? = some c)
    (hm : c ∉ h) : countOcc n h = 0 := by
  induction h with
  | nil => rfl
  | cons d hs ih =>
    have hne : c ≠ d := fun he => hm (he ▸ List.mem_cons_self d hs)
    have hms : c ∉ hs := fun he => hm (List.mem_cons_of_mem d he)
    cases n with
    | nil => simp at hc
    | cons a n' =>
      have ha : a = c := by simpa using hc
      subst ha
      simp only [countOcc, isPref, beq_eq_false_iff_ne.mpr hne, Bool.false_and, ih hms]
      simp

theorem escText_not_mem_lt (s : String) : '<' ∉ (escText s).data := by
  intro hm
  simp only [escText] at hm
  rw [List.mem_flatMap] at hm
  obtain ⟨c, _, hc⟩ := hm
  unfold escChar at hc
  split at hc
  · simp at hc
  · split at hc
    · simp at hc
    · split at hc
      · simp at hc
      · next h1 h2 h3 =>
        rw [List.mem_singleton] at hc
        subst hc
        simp at h2

theorem noCrossR_nil (N : List Char) : noCrossR N [] = true := by
  rw [noCrossR, List.all_eq_true]
  intro k hk
  rw [List.mem_range] at hk
  by_cases hk0 : k = 0
  · simp [hk0]
  · cases hd : N.drop k with
    | nil =>
      have := congrArg List.length hd
      simp only [List.length_drop, List.length_nil] at this
      omega
    | cons d rest =>
      simp [hd, isPref]

theorem noCrossR_head {N l : List Char} {c : Char} (hN : (List.range N.length).all
      (fun k => k == 0 || !((N.drop k).head? == some c)) = true)
    (hl : l.head? = some c) : noCrossR N l = true := by
  rw [noCrossR, List.all_eq_true]
  intro k hk
  rw [List.mem_range] at hk
  by_cases hk0 : k = 0
  · simp [hk0]
  · have hd := (List.all_eq_true.mp hN) k (by rw [List.mem_range]; exact hk)
    rw [Bool.or_eq_true] at hd
    rcases hd with hd | hd
    · exact absurd (by simpa using hd) hk0
    · cases l with
      | nil => simp at hl
      | cons b l' =>
        have hb : b = c := by simpa using hl
        subst hb
        cases hdrop : N.drop k with
        | nil =>
          have := congrArg List.length hdrop
          simp only [List.length_drop, List.length_nil] at this
          omega
        | cons d rest =>
          rw [hdrop] at hd
          have hdc : d ≠ b := by simpa using hd
          simp [isPref, beq_eq_false_iff_ne.mpr hdc]

/-! ## Shape of the serialized feed document -/

theorem nsUsedE_rss (now : String) (jobs : List JobRecord) :
    nsUsedE (.mk "rss" [("version", "2.0")] "" [channelTree now jobs]) = true := by
  simp only [nsUsedE, nsUsedL, channelTree, metaChildren, List.cons_append, List.nil_append]
  rw [show startsWithStr "{http://www.w3.org/2005/Atom}link" atomBrace = true from by decide]
  simp

theorem serializeElem_lastBuild (now : String) (hnow : (now == "") = false) :
    serializeElem (.mk "lastBuildDate" [] now []) =
      "<lastBuildDate>" ++ escText now ++ "</lastBuildDate>" := by
  simp only [serializeElem, hnow, Bool.false_and, if_false, Bool.false_eq_true]
  rw [show qualify "lastBuildDate" = "lastBuildDate" from by decide]
  simp only [attrsStr, serializeL]
  apply String.ext
  simp only [String.data_append, List.append_assoc]
  rfl

theorem serializeL_metas (now : String) (jobs : List JobRecord) (hnow : (now == "") = false) :
    serializeL (metaChildren now ++ List.map itemTree jobs) =
      "<title>Green Climate Fund Jobs</title><link>https://jobs.greenclimate.fund/en/sites/CX_1001/jobs</link><description>Job listings from Green Climate Fund</description><language>en-us</language><atom:link href=\"https://cinfoposte.github.io/gcf-jobs/gcf_jobs.xml\" rel=\"self\" type=\"application/rss+xml\" /><lastBuildDate>" ++
      (escText now ++ ("</lastBuildDate>" ++ serializeL (List.map itemTree jobs))) := by
  simp only [metaChildren, List.cons_append, List.nil_append, serializeL]
  rw [show serializeElem (.mk "title" [] "Green Climate Fund Jobs" []) =
      "<title>Green Climate Fund Jobs</title>" from by decide]
  rw [show serializeElem (.mk "link" [] listingUrl []) =
      "<link>https://jobs.greenclimate.fund/en/sites/CX_1001/jobs</link>" from by decide]
  rw [show serializeElem (.mk "description" [] "Job listings from Green Climate Fund" []) =
      "<description>Job listings from Green Climate Fund</description>" from by decide]
  rw [show serializeElem (.mk "language" [] "en-us" []) = "<language>en-us</language>" from by decide]
  rw [show serializeElem (.mk "{http://www.w3.org/2005/Atom}link"
        [("href", "https://cinfoposte.github.io/gcf-jobs/gcf_jobs.xml"),
         ("rel", "self"), ("type", "application/rss+xml")] "" []) =
      "<atom:link href=\"https://cinfoposte.github.io/gcf-jobs/gcf_jobs.xml\" rel=\"self\" type=\"application/rss+xml\" />" from by decide]
  rw [serializeElem_lastBuild now hnow]
  apply String.ext
  simp only [String.data_append, List.append_assoc]
  rfl

theorem serializeDoc_shape (now : String) (jobs : List JobRecord) (hnow : (now == "") = false) :
    (serializeDoc (rssTree now jobs)).data =
      rssHeadPre.data ++ ((escText now).data ++ (rssHeadPost.data ++
        ((serializeL (List.map itemTree jobs)).data ++ rssTail.data))) := by
  simp only [rssTree, serializeDoc]
  simp only [nsUsedE_rss now jobs, if_true,
    show (("" == "") && ([channelTree now jobs] : List Element).isEmpty) = false from by simp,
    Bool.false_eq_true, if_false,
    show qualify "rss" = "rss" from by decide,
    show attrsStr [("version", "2.0")] = " version=\"2.0\"" from by decide]
  simp only [serializeL, channelTree, serializeElem]
  simp only [show (("" == "") &&
      (metaChildren now ++ List.map itemTree jobs).isEmpty) = false from by simp [metaChildren],
    Bool.false_eq_true, if_false,
    show qualify "channel" = "channel" from by decide, attrsStr]
  simp only [
    show ("Green Climate Fund Jobs" == "" && ([] : List Element).isEmpty) = false from by decide,
    show (listingUrl == "" && ([] : List Element).isEmpty) = false from by decide,
    show ("Job listings from Green Climate Fund" == "" && ([] : List Element).isEmpty) = false from
      by decide,
    show ("en-us" == "" && ([] : List Element).isEmpty) = false from by decide,
    show (("" == "") && ([] : List Element).isEmpty) = true from by decide,
    show (now == "" && ([] : List Element).isEmpty) = false from by simp [hnow],
    Bool.false_eq_true, if_false, if_true,
    show qualify "title" = "title" from by decide,
    show qualify "link" = "link" from by decide,
    show qualify "description" = "description" from by decide,
    show qualify "language" = "language" from by decide,
    show qualify "lastBuildDate" = "lastBuildDate" from by decide,
    show qualify "{http://www.w3.org/2005/Atom}link" = "atom:link" from by decide,
    List.nil_append]
  simp only [String.data_append, List.append_assoc]
  rfl


theorem serializeElem_mk (t : String) (a : List (String × String)) (s : String)
    (cs : List Element) :
    serializeElem (.mk t a s cs) =
      if (s == "" && cs.isEmpty) then "<" ++ qualify t ++ attrsStr a ++ " />"
      else "<" ++ qualify t ++ attrsStr a ++ ">" ++ escText s ++ serializeL cs ++
        "</" ++ qualify t ++ ">" := rfl

theorem serializeElem_leaf (t : String) (a : List (String × String)) (s : String) :
    serializeElem (.mk t a s []) = elemStr t a s := by
  cases hp : (s == "")
  · simp only [serializeElem_mk, elemStr, hp, Bool.false_and, Bool.false_eq_true, if_false,
      serializeL]
    apply String.ext
    simp only [String.data_append, List.append_assoc]
    rfl
  · simp only [serializeElem_mk, elemStr, hp, Bool.true_and, List.isEmpty_nil, if_true]

theorem serializeElem_item (j : JobRecord) :
    serializeElem (itemTree j) =
      "<item>" ++ (elemStr "title" [] j.title ++ (elemStr "link" [] j.link ++
        (elemStr "description" [] j.description ++
          (elemStr "guid" [("isPermaLink", "true")] j.link ++
            ((if !(j.pubDate == "") then elemStr "pubDate" [] j.pubDate else "") ++
              "</item>"))))) := by
  cases hp : (j.pubDate == "")
  · simp only [itemTree, hp, Bool.not_false, if_true, Bool.false_eq_true, if_false,
      List.cons_append, List.nil_append, List.append_nil]
    rw [serializeElem_mk]
    simp only [List.cons_append, List.nil_append, List.append_nil, List.isEmpty_cons,
      Bool.and_false, Bool.false_eq_true, if_false]
    simp only [show qualify "item" = "item" from by decide, attrsStr, serializeL,
      serializeElem_leaf]
    apply String.ext
    simp only [String.data_append, List.append_assoc]
    rfl
  · simp only [itemTree, hp, Bool.not_true, if_false, Bool.false_eq_true,
      List.cons_append, List.nil_append, List.append_nil]
    rw [serializeElem_mk]
    simp only [List.cons_append, List.nil_append, List.append_nil, List.isEmpty_cons,
      Bool.and_false, Bool.false_eq_true, if_false]
    simp only [show qualify "item" = "item" from by decide, attrsStr, serializeL,
      serializeElem_leaf]
    apply String.ext
    simp only [String.data_append, List.append_assoc]
    rfl

theorem elemStr_grouped (t : String) (a : List (String × String)) {s : String}
    (hp : (s == "") = false) :
    elemStr t a s = ("<" ++ qualify t ++ attrsStr a ++ ">") ++
      (escText s ++ ("</" ++ qualify t ++ ">")) := by
  simp only [elemStr, hp, Bool.false_eq_true, if_false]
  apply String.ext
  simp only [String.data_append, List.append_assoc]

theorem elemStr_data_head (t : String) (a : List (String × String)) (s : String) :
    ∃ rest, (elemStr t a s).data = '<' :: rest := by
  cases hp : (s == "")
  · rw [elemStr_grouped t a hp]
    simp only [String.data_append, List.append_assoc]
    exact ⟨_, rfl⟩
  · simp only [elemStr, hp, if_true, String.data_append, List.append_assoc]
    exact ⟨_, rfl⟩

theorem cnt0_l {n a b : List Char} (hcl : noCrossL n a = true) (h1 : countOcc n a = 0)
    (h2 : countOcc n b = 0) : countOcc n (a ++ b) = 0 := by
  rw [countOcc_append_l hcl, h1, h2]

theorem cnt0_r {n a b : List Char} (hcr : noCrossR n b = true) (h1 : countOcc n a = 0)
    (h2 : countOcc n b = 0) : countOcc n (a ++ b) = 0 := by
  rw [countOcc_append_r hcr, h1, h2]

theorem noCrossR_head_lt {N l : List Char} (hN : headsOkLt N = true)
    (hl : l.head? = some '<') : noCrossR N l = true :=
  noCrossR_head (by simpa [headsOkLt] using hN) hl

theorem elemStr_count_zero {N : List Char} {t : String} {a : List (String × String)}
    {s : String} (hok : elemOk N t a) (hesc : countOcc N (escText s).data = 0) :
    countOcc N (elemStr t a s).data = 0 := by
  obtain ⟨h1, h2, h3, h4, h5⟩ := hok
  cases hp : (s == "")
  · rw [elemStr_grouped t a hp, String.data_append]
    refine cnt0_l h3 h2 ?_
    rw [String.data_append]
    exact cnt0_r h5 hesc h4
  · simp only [elemStr, hp, if_true]
    exact h1

theorem item_count_zero {N : List Char} (j : JobRecord) (hok : itemOk N)
    (ht : countOcc N (escText j.title).data = 0)
    (hl : countOcc N (escText j.link).data = 0)
    (hd : countOcc N (escText j.description).data = 0)
    (hpd : countOcc N (escText j.pubDate).data = 0) :
    countOcc N (serializeElem (itemTree j)).data = 0 := by
  obtain ⟨hi1, hi2, hi3, hi4, hheads, hT, hL, hD, hG, hP⟩ := hok
  have hhead : ∀ (x : String) (r : List Char), (∃ rest, x.data = '<' :: rest) →
      noCrossR N (x.data ++ r) = true := by
    rintro x r ⟨rest, hx⟩
    apply noCrossR_head_lt hheads
    rw [hx]
    rfl
  rw [serializeElem_item]
  cases hp : (j.pubDate == "")
  · simp only [hp, Bool.not_false, if_true, String.data_append]
    refine cnt0_l hi1 hi2 ?_
    refine cnt0_r (hhead _ _ (elemStr_data_head _ _ _)) (elemStr_count_zero hT ht) ?_
    refine cnt0_r (hhead _ _ (elemStr_data_head _ _ _)) (elemStr_count_zero hL hl) ?_
    refine cnt0_r (hhead _ _ (elemStr_data_head _ _ _)) (elemStr_count_zero hD hd) ?_
    refine cnt0_r (hhead _ _ (elemStr_data_head _ _ _)) (elemStr_count_zero hG hl) ?_
    exact cnt0_r hi4 (elemStr_count_zero hP hpd) hi3
  · simp only [hp, Bool.not_true, Bool.false_eq_true, if_false, String.data_append,
      List.nil_append]
    refine cnt0_l hi1 hi2 ?_
    refine cnt0_r (hhead _ _ (elemStr_data_head _ _ _)) (elemStr_count_zero hT ht) ?_
    refine cnt0_r (hhead _ _ (elemStr_data_head _ _ _)) (elemStr_count_zero hL hl) ?_
    refine cnt0_r (hhead _ _ (elemStr_data_head _ _ _)) (elemStr_count_zero hD hd) ?_
    exact cnt0_r hi4 (elemStr_count_zero hG hl) hi3

theorem items_noCrossR {N : List Char} (hheads : headsOkLt N = true)
    (jobs : List JobRecord) :
    noCrossR N (serializeL (List.map itemTree jobs)).data = true := by
  cases jobs with
  | nil =>
    rw [show (serializeL (List.map itemTree ([] : List JobRecord))).data = [] from rfl]
    exact noCrossR_nil N
  | cons j js =>
    apply noCrossR_head_lt hheads
    rw [show serializeL (List.map itemTree (j :: js)) =
        serializeElem (itemTree j) ++ serializeL (List.map itemTree js) from rfl]
    rw [serializeElem_item]
    rfl

theorem items_count_zero {N : List Char} (jobs : List JobRecord) (hok : itemOk N)
    (hc : ∀ j ∈ jobs, countOcc N (escText j.title).data = 0 ∧
      countOcc N (escText j.link).data = 0 ∧ countOcc N (escText j.description).data = 0 ∧
      countOcc N (escText j.pubDate).data = 0) :
    countOcc N (serializeL (List.map itemTree jobs)).data = 0 := by
  have hheads : headsOkLt N = true := hok.2.2.2.2.1
  induction jobs with
  | nil => rfl
  | cons j js ih =>
    rw [show serializeL (List.map itemTree (j :: js)) =
        serializeElem (itemTree j) ++ serializeL (List.map itemTree js) from rfl]
    rw [String.data_append]
    obtain ⟨ht, hl, hd, hpd⟩ := hc j (List.mem_cons_self j js)
    exact cnt0_r (items_noCrossR hheads js) (item_count_zero j hok ht hl hd hpd)
      (ih (fun x hx => hc x (List.mem_cons_of_mem j hx)))

theorem doc_count {N : List Char} (now : String) (jobs : List JobRecord)
    (hnow0 : (now == "") = false)
    (hok : itemOk N)
    (hpre : noCrossL N rssHeadPre.data = true)
    (hpostCross : noCrossR N rssHeadPost.data = true)
    (hlen : N.length ≤ rssHeadPost.data.length + 1)
    (hpostL : noCrossL N rssHeadPost.data = true)
    (hpost0 : countOcc N rssHeadPost.data = 0)
    (htailCross : noCrossR N rssTail.data = true)
    (htail0 : countOcc N rssTail.data = 0)
    (hescnow : countOcc N (escText now).data = 0)
    (hfields : ∀ j ∈ jobs, countOcc N (escText j.title).data = 0 ∧
      countOcc N (escText j.link).data = 0 ∧ countOcc N (escText j.description).data = 0 ∧
      countOcc N (escText j.pubDate).data = 0) :
    countOcc N (serializeDoc (rssTree now jobs)).data = countOcc N rssHeadPre.data := by
  rw [serializeDoc_shape now jobs hnow0]
  rw [countOcc_append_l hpre]
  rw [countOcc_append_r (noCrossR_append hpostCross hlen _)]
  rw [countOcc_append_l hpostL]
  rw [countOcc_append_r htailCross]
  rw [hescnow, hpost0, htail0, items_count_zero jobs hok hfields]
  omega


theorem doc_count_xmlns (now : String) (jobs : List JobRecord) (hnow0 : (now == "") = false)
    (hescnow : countS "xmlns:" (escText now) = 0) (hfields : ∀ j ∈ jobs, cleanFields j) :
    countOcc "xmlns:".data (serializeDoc (rssTree now jobs)).data = 1 := by
  have h := doc_count (N := "xmlns:".data) now jobs hnow0 (by decide) (by decide) (by decide)
    (by decide) (by decide) (by decide) (by decide) (by decide) hescnow
    (fun j hj => by
      obtain ⟨a, b, c, d, e, f, g, i⟩ := hfields j hj
      exact ⟨a, c, e, g⟩)
  rw [h]
  decide

theorem doc_count_ns0 (now : String) (jobs : List JobRecord) (hnow0 : (now == "") = false)
    (hescnow : countS "ns0" (escText now) = 0) (hfields : ∀ j ∈ jobs, cleanFields j) :
    countOcc "ns0".data (serializeDoc (rssTree now jobs)).data = 0 := by
  have h := doc_count (N := "ns0".data) now jobs hnow0 (by decide) (by decide) (by decide)
    (by decide) (by decide) (by decide) (by decide) (by decide) hescnow
    (fun j hj => by
      obtain ⟨a, b, c, d, e, f, g, i⟩ := hfields j hj
      exact ⟨b, d, f, i⟩)
  rw [h]
  decide

theorem generateRssXml_eq_doc (now : String) (jobs : List JobRecord)
    (hx : countOcc "xmlns:".data (serializeDoc (rssTree now jobs)).data = 1)
    (hn : countOcc "ns0".data (serializeDoc (rssTree now jobs)).data = 0) :
    generateRssXml now jobs = serializeDoc (rssTree now jobs) := by
  have hne : ("ns0".data : List Char) ≠ [] := by decide
  have h1 : countOcc "xmlns:ns0=".data (serializeDoc (rssTree now jobs)).data = 0 := by
    rw [show ("xmlns:ns0=".data : List Char) = "xmlns:".data ++ "ns0".data ++ "=".data from
      by decide]
    exact countOcc_infix_zero "xmlns:".data "=".data hne hn
  have h2 : countOcc "<ns0:".data (serializeDoc (rssTree now jobs)).data = 0 := by
    rw [show ("<ns0:".data : List Char) = "<".data ++ "ns0".data ++ ":".data from by decide]
    exact countOcc_infix_zero "<".data ":".data hne hn
  have h3 : countOcc "</ns0:".data (serializeDoc (rssTree now jobs)).data = 0 := by
    rw [show ("</ns0:".data : List Char) = "</".data ++ "ns0".data ++ ":".data from by decide]
    exact countOcc_infix_zero "</".data ":".data hne hn
  have h4 : countOcc atomDeclLit (serializeDoc (rssTree now jobs)).data ≤ 1 := by
    rw [show (atomDeclLit : List Char) = "xmlns:".data ++ "atom=\"".data from by decide]
    have hle := countOcc_prefix_le "xmlns:".data "atom=\"".data
      (serializeDoc (rssTree now jobs)).data
    rw [hx] at hle
    exact hle
  unfold generateRssXml fixNs0
  rw [pyReplace_id _ h1, pyReplace_id _ h2, pyReplace_id _ h3, dedupAtomDecl_id h4]


/-! ## Pipeline lemmas -/

theorem scrapeLoop_eq_processAll (env : Env) (l : List Cand) :
    scrapeLoop env l = processAll env (l.filter (fun c => !env.fault c)) := by
  unfold scrapeLoop processAll
  suffices h : ∀ acc : List JobRecord,
      l.foldl (fun acc c => if env.fault c then acc else accStep env acc c) acc =
        (l.filter (fun c => !env.fault c)).foldl (accStep env) acc from h []
  induction l with
  | nil => intro acc; rfl
  | cons c cs ih =>
    intro acc
    by_cases hf : env.fault c
    · simp only [List.foldl_cons, List.filter_cons, hf, if_true, Bool.not_true,
        Bool.false_eq_true, if_false]
      exact ih acc
    · have hf' : env.fault c = false := by simpa using hf
      simp only [List.foldl_cons, List.filter_cons, hf', Bool.false_eq_true, if_false,
        Bool.not_false, if_true]
      exact ih (accStep env acc c)

theorem processCandidate_shape (env : Env) (c : Cand) (rb : JobRecord × Bool)
    (h : processCandidate env c = some rb) :
    ∃ href, resolveLink c.1 = some href ∧
      rb.1.link = normalizeHref href ∧
      rb.1.title = (refineTitle env (normalizeHref href) (prelim c.1 c.2).1).1 ∧
      rb.2 = (refineTitle env (normalizeHref href) (prelim c.1 c.2).1).2.2 ∧
      rb.1.description = mkDescription rb.1.title rb.1.location rb.1.department := by
  unfold processCandidate at h
  cases hr : resolveLink c.1 with
  | none => rw [hr] at h; simp at h
  | some href =>
    rw [hr] at h
    rcases Option.some_inj.mp h with rfl
    exact ⟨href, rfl, rfl, rfl, rfl, rfl⟩

theorem scrape_record_inv (env : Env) :
    ∀ j ∈ scrape env, (j.title ≠ "" ∧ j.link ≠ "") ∧
      j.description = mkDescription j.title j.location j.department := by
  have hstep : ∀ (acc : List JobRecord) (c : Cand),
      (∀ j ∈ acc, (j.title ≠ "" ∧ j.link ≠ "") ∧
        j.description = mkDescription j.title j.location j.department) →
      ∀ j ∈ accStep env acc c, (j.title ≠ "" ∧ j.link ≠ "") ∧
        j.description = mkDescription j.title j.location j.department := by
    intro acc c hacc j hj
    unfold accStep at hj
    cases hpc : processCandidate env c with
    | none => rw [hpc] at hj; exact hacc j hj
    | some rb =>
      rw [hpc] at hj
      obtain ⟨r, b⟩ := rb
      have hj' : j ∈ (if (r.title != "" && r.link != "") = true then acc ++ [r] else acc) := hj
      by_cases hg : (r.title != "" && r.link != "") = true
      · rw [if_pos hg] at hj'
        rcases List.mem_append.mp hj' with hj'' | hj''
        · exact hacc j hj''
        · rw [List.mem_singleton] at hj''
          rw [Bool.and_eq_true, bne_iff_ne, bne_iff_ne] at hg
          obtain ⟨_, _, _, _, _, hdesc⟩ := processCandidate_shape env c (r, b) hpc
          rw [hj'']
          exact ⟨hg, hdesc⟩
      · rw [if_neg hg] at hj'
        exact hacc j hj' 
  have hfold : ∀ (l : List Cand) (acc : List JobRecord),
      (∀ j ∈ acc, (j.title ≠ "" ∧ j.link ≠ "") ∧
        j.description = mkDescription j.title j.location j.department) →
      ∀ j ∈ l.foldl (fun acc c => if env.fault c then acc else accStep env acc c) acc,
        (j.title ≠ "" ∧ j.link ≠ "") ∧
        j.description = mkDescription j.title j.location j.department := by
    intro l
    induction l with
    | nil => intro acc hacc; exact hacc
    | cons c cs ih =>
      intro acc hacc
      rw [List.foldl_cons]
      apply ih
      by_cases hf : env.fault c
      · rw [if_pos hf]; exact hacc
      · rw [if_neg hf]; exact hstep acc c hacc
  intro j hj
  unfold scrape at hj
  cases hp : env.pageLoad with
  | none => rw [hp] at hj; simp at hj
  | some soup =>
    rw [hp] at hj
    exact hfold _ [] (by simp) j hj

theorem mkDescription_spelled (t l d : String) :
    mkDescription t l d = joinSep " | " ([t] ++
      (if l == "Not specified" then [] else ["Location: " ++ l]) ++
      (if d == "" then [] else ["Department: " ++ d])) := by
  unfold mkDescription
  cases hl : (l == "Not specified") <;> cases hd : (d == "") <;> simp [hl, hd]


/-! ## The claims -/

/-- C1 (amended): a candidate whose preliminary title is empty, shorter than
5 characters, or starts with "Position" triggers the detail-page lookup (and
no other candidate does); when the lookup raises, the final title is the
synthesized `"Position " ++ trailing path segment` only if the preliminary
title was empty — a short or "Position"-prefixed non-empty preliminary title
is kept unchanged. -/
theorem c1_title_refinement (env : Env) (c : Cand) (r : JobRecord) (looked : Bool)
    (h : processCandidate env c = some (r, looked)) :
    (titleNeedsDetail (prelim c.1 c.2).1 = true →
      looked = true ∧
      (env.fetch r.link = FetchResult.fail →
        r.title = (if (prelim c.1 c.2).1 == "" then "Position " ++ trailingSeg r.link
          else (prelim c.1 c.2).1))) ∧
    (titleNeedsDetail (prelim c.1 c.2).1 = false →
      looked = false ∧ r.title = (prelim c.1 c.2).1) := by
  obtain ⟨href, hr, hlink, htitle, hlooked, _⟩ := processCandidate_shape env c (r, looked) h
  constructor
  · intro ht
    simp only [refineTitle, ht, if_true] at htitle hlooked
    cases hf : env.fetch (normalizeHref href) with
    | fail =>
      rw [hf] at htitle hlooked
      simp only at htitle hlooked
      refine ⟨hlooked, fun _ => ?_⟩
      rw [htitle, hlink]
    | page jsoup =>
      rw [hf] at htitle hlooked
      simp only at htitle hlooked
      refine ⟨hlooked, fun hff => ?_⟩
      rw [hlink, hf] at hff
      exact absurd hff (by simp)
  · intro ht
    simp only [refineTitle, ht, Bool.false_eq_true, if_false] at htitle hlooked
    exact ⟨hlooked, htitle⟩

/-- C1 counterexample: the candidate `anchShort` has the 3-character title
"abc", so the detail lookup triggers; the lookup fails, yet the final title
is "abc", not "Position 99" as the claim states. -/
theorem c1_counterexample :
    (scrape envShort).map JobRecord.title = ["abc"] ∧
    titleNeedsDetail "abc" = true ∧
    envShort.fetch "https://jobs.greenclimate.fund/job/99" = FetchResult.fail ∧
    trailingSeg "https://jobs.greenclimate.fund/job/99" = "99" ∧
    ("abc" : String) ≠ "Position 99" :=
  ⟨by decide, by decide, rfl, by decide, by decide⟩

/-- Witness for `c1_title_refinement` at the concrete run `envShort`. -/
theorem c1_witness :
    processCandidate envShort (anchShort, []) = some (recShort, true) ∧
    titleNeedsDetail (prelim anchShort []).1 = true ∧
    recShort.title = (if (prelim anchShort []).1 == "" then
      "Position " ++ trailingSeg recShort.link else (prelim anchShort []).1) := by
  refine ⟨by decide, by decide, ?_⟩
  exact ((c1_title_refinement envShort (anchShort, []) recShort true (by decide)).1
    (by decide)).2 rfl

/-- C2 (amended): every accepted record's description is the title, then
"Location: X" omitted exactly when the location equals the literal
"Not specified", then "Department: Y" omitted exactly when the department is
empty, joined by " | ".  The literal "Not specified" is not the
unknown-location default (which is "Green Climate Fund"), so records with an
unknown location still carry a location part.  The spec's worked Engineer
example holds. -/
theorem c2_description :
    (∀ (env : Env) (j : JobRecord), j ∈ scrape env →
      j.description = joinSep " | " ([j.title] ++
        (if j.location == "Not specified" then [] else ["Location: " ++ j.location]) ++
        (if j.department == "" then [] else ["Department: " ++ j.department]))) ∧
    mkDescription "Engineer" "Remote" "" = "Engineer | Location: Remote" ∧
    defaultLocation = "Green Climate Fund" ∧ defaultLocation ≠ "Not specified" := by
  refine ⟨?_, by decide, by decide, by decide⟩
  intro env j hj
  rw [(scrape_record_inv env j hj).2, mkDescription_spelled]

/-- C2 counterexample: the record scraped from `envGood` has the
unknown-location default "Green Climate Fund" as its location, yet its
description still contains the "Location: ..." part (the claim predicts the
part is omitted exactly for that sentinel). -/
theorem c2_counterexample :
    (scrape envGood).map (fun j => (j.location, j.description)) =
      [("Green Climate Fund", "Software Engineer | Location: Green Climate Fund")] ∧
    defaultLocation = "Green Climate Fund" ∧
    ("Software Engineer | Location: Green Climate Fund" : String) ≠ "Software Engineer" :=
  ⟨by decide, by decide, by decide⟩

/-- Witness for `c2_description` at the concrete run `envGood`. -/
theorem c2_witness :
    recGood ∈ scrape envGood ∧
    recGood.description = joinSep " | " ([recGood.title] ++
      (if recGood.location == "Not specified" then [] else ["Location: " ++ recGood.location]) ++
      (if recGood.department == "" then [] else ["Department: " ++ recGood.department])) :=
  ⟨by decide, c2_description.1 envGood recGood (by decide)⟩

/-- C3 (amended): a discovered candidate is dropped by the filter iff its
lowered visible text contains one of the six keywords (sitemap, account,
sign-in, profile, help, about), or its link target — taken only from the
candidate itself when it is an anchor — contains one of only three keywords
(sitemap, sign-in, profile); account, help and about are not checked against
the link target. -/
theorem c3_filter (l : List Cand) (c : Cand) :
    c ∈ filterCandidates l ↔ c ∈ l ∧
      (["sitemap", "account", "sign-in", "profile", "help", "about"].any
        (fun k => containsSub (lowerStr (getText c.1)) k)) = false ∧
      (["sitemap", "sign-in", "profile"].any (fun k => containsSub
        (lowerStr (if c.1.tag == "a" then (c.1.attr "href").getD "" else "")) k)) = false := by
  rw [filterCandidates, List.mem_filter]
  unfold keepCandidate skipKeywords linkSkipKeywords
  simp only [Bool.and_eq_true, Bool.not_eq_true']

/-- C3 counterexample: `anchAccount` has a link target containing "account"
and none of the keywords in its visible text, yet it survives the filter
(the claim predicts it is dropped). -/
theorem c3_counterexample :
    containsSub (lowerStr ((anchAccount.attr "href").getD "")) "account" = true ∧
    skipKeywords.all (fun k => !containsSub (lowerStr (getText anchAccount)) k) = true ∧
    filterCandidates [(anchAccount, [])] = [(anchAccount, [])] :=
  ⟨by decide, by decide, rfl⟩

/-- C4 (confirmed): when the rendered page contains N ≥ 1 job-link elements
matched by strategy (a) and none of them trips the navigation filter,
discovery stops at strategy (a) (strategies (b)/(c) are never consulted) and
exactly min(N, 50) candidates enter per-candidate extraction. -/
theorem c4_strategy_priority (soup : Element) (N : Nat)
    (hN : (strategy1 soup).length = N) (hpos : 0 < N)
    (hkeep : ∀ c ∈ strategy1 soup, keepCandidate c = true) :
    (discover soup).1 = 1 ∧ (discover soup).2 = strategy1 soup ∧
    (candidatesForExtraction soup).length = min N 50 := by
  have hne : (strategy1 soup).isEmpty = false := by
    cases he : (strategy1 soup).isEmpty
    · rfl
    · rw [List.isEmpty_iff] at he
      rw [he] at hN
      simp at hN
      omega
  refine ⟨?_, ?_, ?_⟩
  · simp only [discover, hne, Bool.false_eq_true, if_false]
  · simp only [discover, hne, Bool.false_eq_true, if_false]
  · unfold candidatesForExtraction filterCandidates
    simp only [discover, hne, Bool.false_eq_true, if_false]
    rw [List.filter_eq_self.mpr hkeep, List.length_take, hN, Nat.min_comm]

/-- Witness for `c4_strategy_priority` on the one-job document `soupGood`. -/
theorem c4_witness :
    (strategy1 soupGood).length = 1 ∧ 0 < 1 ∧
    (∀ c ∈ strategy1 soupGood, keepCandidate c = true) ∧
    ((discover soupGood).1 = 1 ∧ (discover soupGood).2 = strategy1 soupGood ∧
      (candidatesForExtraction soupGood).length = min 1 50) :=
  ⟨rfl, by decide, by decide, c4_strategy_priority soupGood 1 rfl (by decide) (by decide)⟩

/-- C5 (amended): for every candidate with a resolvable link attribute, the
record's link is the raw attribute passed through unchanged when it starts
with "http", and the site origin prefixed to it otherwise — the test is a
literal `startswith("http")`, not a scheme check. -/
theorem c5_link_normalization (env : Env) (c : Cand) (r : JobRecord) (b : Bool)
    (h : processCandidate env c = some (r, b)) :
    ∃ href, resolveLink c.1 = some href ∧
      r.link = (if startsWithStr href "http" then href else siteOrigin ++ href) := by
  obtain ⟨href, hr, hlink, _⟩ := processCandidate_shape env c (r, b) h
  rw [normalizeHref] at hlink
  exact ⟨href, hr, hlink⟩

/-- C5 counterexample: the link "ftp://files.example/job/7" carries a scheme,
yet the scraper prefixes the site origin to it instead of passing it through
unchanged (the code tests `startswith("http")`, not "has a scheme"). -/
theorem c5_counterexample :
    linkHasSchemeSpec "ftp://files.example/job/7" = true ∧
    (scrape envFtp).map JobRecord.link =
      ["https://jobs.greenclimate.fundftp://files.example/job/7"] ∧
    ("https://jobs.greenclimate.fundftp://files.example/job/7" : String) ≠
      "ftp://files.example/job/7" :=
  ⟨by decide, by decide, by decide⟩

/-- Witness for `c5_link_normalization` at the concrete run `envGood`. -/
theorem c5_witness :
    processCandidate envGood (anchGood, []) = some (recGood, false) ∧
    (∃ href, resolveLink anchGood = some href ∧
      recGood.link = (if startsWithStr href "http" then href else siteOrigin ++ href)) :=
  ⟨by decide, c5_link_normalization envGood (anchGood, []) recGood false (by decide)⟩

/-- C6 (confirmed): every record returned by the scraper has a non-empty
title and a non-empty link (a record is appended only under that guard). -/
theorem c6_nonempty (env : Env) (j : JobRecord) (hj : j ∈ scrape env) :
    j.title ≠ "" ∧ j.link ≠ "" :=
  (scrape_record_inv env j hj).1

/-- Witness for `c6_nonempty` at the concrete run `envGood`. -/
theorem c6_witness : recGood.title ≠ "" ∧ recGood.link ≠ "" :=
  c6_nonempty envGood recGood (by decide)

/-- C7 (confirmed): an error while processing one candidate skips exactly
that candidate and the loop continues over the rest (the run equals the
fault-free processing of the non-faulting candidates); a failed initial page
load is caught at the top level and yields the empty record list. -/
theorem c7_error_handling (env : Env) :
    (env.pageLoad = none → scrape env = []) ∧
    (∀ soup, env.pageLoad = some soup →
      scrape env = processAll env
        ((candidatesForExtraction soup).filter (fun c => !env.fault c))) := by
  constructor
  · intro h
    unfold scrape
    rw [h]
  · intro soup h
    unfold scrape
    rw [h]
    exact scrapeLoop_eq_processAll env _

/-- Witness for `c7_error_handling` at the concrete runs `envNone` and
`envGood`. -/
theorem c7_witness :
    scrape envNone = [] ∧
    scrape envGood = processAll envGood
      ((candidatesForExtraction soupGood).filter (fun c => !envGood.fault c)) :=
  ⟨(c7_error_handling envNone).1 rfl, (c7_error_handling envGood).2 soupGood rfl⟩

/-- C8 (confirmed): with zero records the generated document is exactly the
channel skeleton — the explicit well-formed document text with title, link,
description, language, Atom self-link and lastBuildDate — and contains zero
`<item` elements. -/
theorem c8_empty_feed (now : String) (hnow : now ≠ "")
    (h1 : countS "xmlns:" (escText now) = 0) (h2 : countS "ns0" (escText now) = 0) :
    generateRssXml now [] = rssHeadPre ++ (escText now ++ (rssHeadPost ++ rssTail)) ∧
    (channelTree now []).childrenOf.map Element.tag =
      ["title", "link", "description", "language",
        "{http://www.w3.org/2005/Atom}link", "lastBuildDate"] ∧
    countS "<item" (generateRssXml now []) = 0 ∧
    (rssTree now []).tag = "rss" ∧
    (rssTree now []).childrenOf.map Element.tag = ["channel"] := by
  have hnow0 : (now == "") = false := beq_eq_false_iff_ne.mpr hnow
  have hfields : ∀ j ∈ ([] : List JobRecord), cleanFields j := by simp
  have hx := doc_count_xmlns now [] hnow0 h1 hfields
  have hn := doc_count_ns0 now [] hnow0 h2 hfields
  have hid := generateRssXml_eq_doc now [] hx hn
  have hstr : generateRssXml now [] = rssHeadPre ++ (escText now ++ (rssHeadPost ++ rssTail)) := by
    rw [hid]
    apply String.ext
    rw [serializeDoc_shape now [] hnow0]
    simp only [String.data_append, List.append_assoc]
    rfl
  refine ⟨hstr, rfl, ?_, rfl, rfl⟩
  rw [countS, hstr]
  simp only [String.data_append]
  refine cnt0_l (by decide) (by decide) ?_
  refine cnt0_r (noCrossR_append (by decide) (by decide) _)
    (countOcc_zero_of_not_mem rfl (escText_not_mem_lt now)) ?_
  exact cnt0_l (by decide) (by decide) (by decide)

/-- Witness for `c8_empty_feed` at a concrete timestamp. -/
theorem c8_witness :
    ("Sun, 12 Oct 2025 00:00:00 +0000" : String) ≠ "" ∧
    countS "xmlns:" (escText "Sun, 12 Oct 2025 00:00:00 +0000") = 0 ∧
    countS "ns0" (escText "Sun, 12 Oct 2025 00:00:00 +0000") = 0 ∧
    (generateRssXml "Sun, 12 Oct 2025 00:00:00 +0000" [] =
      rssHeadPre ++ (escText "Sun, 12 Oct 2025 00:00:00 +0000" ++ (rssHeadPost ++ rssTail)) ∧
    countS "<item" (generateRssXml "Sun, 12 Oct 2025 00:00:00 +0000" []) = 0) := by
  have h := c8_empty_feed "Sun, 12 Oct 2025 00:00:00 +0000" (by decide) (by decide) (by decide)
  exact ⟨by decide, by decide, by decide, h.1, h.2.2.1⟩

/-- C9 (confirmed): for every record sequence (with benign escaped field
texts), the serialized document declares the Atom namespace exactly once,
bound to the literal prefix `atom` with the Atom URI, and never to an `ns0`
placeholder. -/
theorem c9_atom_namespace (now : String) (jobs : List JobRecord) (hnow : now ≠ "")
    (h1 : countS "xmlns:" (escText now) = 0) (h2 : countS "ns0" (escText now) = 0)
    (hjobs : ∀ j ∈ jobs, cleanFields j) :
    countS "xmlns:" (generateRssXml now jobs) = 1 ∧
    countS "xmlns:atom=\"http://www.w3.org/2005/Atom\"" (generateRssXml now jobs) = 1 ∧
    countS "ns0" (generateRssXml now jobs) = 0 := by
  have hnow0 : (now == "") = false := beq_eq_false_iff_ne.mpr hnow
  have hx := doc_count_xmlns now jobs hnow0 h1 hjobs
  have hn := doc_count_ns0 now jobs hnow0 h2 hjobs
  have hid := generateRssXml_eq_doc now jobs hx hn
  refine ⟨by rw [countS, hid]; exact hx, ?_, by rw [countS, hid]; exact hn⟩
  rw [countS, hid]
  apply Nat.le_antisymm
  · rw [show ("xmlns:atom=\"http://www.w3.org/2005/Atom\"".data : List Char) =
      "xmlns:".data ++ "atom=\"http://www.w3.org/2005/Atom\"".data from by decide]
    have hle := countOcc_prefix_le "xmlns:".data
      "atom=\"http://www.w3.org/2005/Atom\"".data (serializeDoc (rssTree now jobs)).data
    rw [hx] at hle
    exact hle
  · apply countOcc_pos_of_suffix (t := (serializeDoc (rssTree now jobs)).data.drop 5)
      (by decide) (List.drop_suffix _ _)
    rw [serializeDoc_shape now jobs hnow0]
    rw [List.drop_append_of_le_length (by decide)]
    exact isPref_extend _ (by decide)

/-- Witness for `c9_atom_namespace` at a concrete timestamp and one record. -/
theorem c9_witness :
    ("Sun, 12 Oct 2025 00:00:00 +0000" : String) ≠ "" ∧
    countS "xmlns:" (escText "Sun, 12 Oct 2025 00:00:00 +0000") = 0 ∧
    countS "ns0" (escText "Sun, 12 Oct 2025 00:00:00 +0000") = 0 ∧
    (∀ j ∈ [recEngineer], cleanFields j) ∧
    (countS "xmlns:" (generateRssXml "Sun, 12 Oct 2025 00:00:00 +0000" [recEngineer]) = 1 ∧
     countS "ns0" (generateRssXml "Sun, 12 Oct 2025 00:00:00 +0000" [recEngineer]) = 0) := by
  have h := c9_atom_namespace "Sun, 12 Oct 2025 00:00:00 +0000" [recEngineer] (by decide)
    (by decide) (by decide) (by decide)
  exact ⟨by decide, by decide, by decide, by decide, h.1, h.2.2⟩

/-- C10 (confirmed): when scraping returns no records, `main` does not invoke
feed generation: no file is written and any existing file store is left
unchanged. -/
theorem c10_no_write (env : Env) (fs : String → Option String) (h : scrape env = []) :
    mainWrites env = none ∧ runMain env fs = fs := by
  have hm : mainWrites env = none := by
    unfold mainWrites
    rw [h]
    rfl
  refine ⟨hm, ?_⟩
  unfold runMain
  rw [hm]

/-- Witness for `c10_no_write` at the failed-load run `envNone`. -/
theorem c10_witness : mainWrites envNone = none ∧ runMain envNone emptyFs = emptyFs :=
  c10_no_write envNone emptyFs rfl

end GCF

